import Mathlib

/-!
Verification development for the calibration acquisition subsystem of the
Leader-Follower repository (collect_bump_data.py).  The Python source is
shallowly embedded: lines of device output are lists of characters, the
serial channel is a script of read events, pandas persistence is a pure
parse of the accumulated raw rows plus a write-success oracle, and the
interactive loop of main is a recursive function over the list of
configured distances paired with their device scripts.
-/

namespace BumpCollect

/-- A device output line after decode and strip, as handled by the script. -/
abbrev Line := List Char

/-- The comma field separator used by the device rows. -/
def commaChar : Char := ','

/-- Python substring containment (pat in s) on lists of characters. -/
def isSubstrOf (pat : Line) : Line → Bool
  | [] => pat.isPrefixOf ([] : Line)
  | c :: t => pat.isPrefixOf (c :: t) || isSubstrOf pat t

/-- Start-of-block marker literal tested with substring containment at
line 180 of collect_bump_data.py. -/
def startMarker : Line := "DATA RECORD START".toList

/-- End-of-block marker literal tested with substring containment at
line 186 of collect_bump_data.py. -/
def endMarker : Line := "DATA RECORD END".toList

/-- The literal the header check line.startswith uses (line 191). -/
def hdrStart : Line := "distance_cm".toList

/-- The full literal column-header line emitted by the device. -/
def hdrLine : Line := "distance_cm,sample_id,bump_L,bump_R,bump_avg".toList

/-- One event delivered by the channel to a blocking read: a decoded and
stripped text line, an operator interrupt (KeyboardInterrupt raised inside
ser.readline), or a read failure (serial.SerialException). -/
inductive Ev
  | line (l : Line)
  | interrupt
  | ioErr
deriving DecidableEq

/-- Result of collect_data_for_distance: the buffered data lines on the
end marker, propagation of an interrupt or channel error raised by a read,
or an indefinite block when the device never emits the end marker. -/
inductive CollectResult
  | done (acc : List Line)
  | interrupted
  | ioError
  | blocked
deriving DecidableEq

/-- The while-True read loop of collect_data_for_distance (lines 170-193):
empty lines are skipped, a line containing the start marker sets the
recording flag, a line containing the end marker returns the buffer, and
while recording a non-header line containing a comma is appended. -/
def collectLoop : List Ev → Bool → List Line → CollectResult
  | [], _, _ => .blocked
  | .interrupt :: _, _, _ => .interrupted
  | .ioErr :: _, _, _ => .ioError
  | .line l :: rest, rec, acc =>
    if l = [] then collectLoop rest rec acc
    else if isSubstrOf startMarker l then collectLoop rest true acc
    else if isSubstrOf endMarker l then .done acc
    else if rec && !(hdrStart.isPrefixOf l) && l.contains commaChar then
      collectLoop rest rec (acc ++ [l])
    else collectLoop rest rec acc

/-- collect_data_for_distance for one distance, run against the script of
events the channel will deliver; recording starts false with an empty
buffer. -/
def collect_data_for_distance (script : List Ev) : CollectResult :=
  collectLoop script false []

/-- One parsed calibration row (save_data lines 206-212). -/
structure CalRow where
  distance_cm : Int
  sample_id : Int
  bump_L : Int
  bump_R : Int
  bump_avg : Int
deriving DecidableEq

/-- Whitespace characters stripped by Python int() around a numeral. -/
def isSpaceChar (c : Char) : Bool :=
  decide (c = ' ' ∨ c = '\t' ∨ c = '\n' ∨ c = '\r' ∨ c = '\x0b' ∨ c = '\x0c')

/-- Accumulate decimal digits; any non-digit character fails. -/
def digitsAux : List Char → Nat → Option Nat
  | [], acc => some acc
  | c :: cs, acc =>
    if decide ('0' ≤ c ∧ c ≤ '9') then digitsAux cs (acc * 10 + (c.toNat - 48))
    else none

/-- A non-empty all-digit numeral; none models a ValueError. -/
def digitsToNat : List Char → Option Nat
  | [] => none
  | c :: cs => digitsAux (c :: cs) 0

/-- Python int(str): surrounding whitespace stripped, an optional sign,
then a non-empty run of decimal digits; none models the ValueError raise.
(Underscore digit grouping is not modelled.) -/
def pyInt (s : Line) : Option Int :=
  let t := ((s.dropWhile isSpaceChar).reverse.dropWhile isSpaceChar).reverse
  match t with
  | '-' :: ds => (digitsToNat ds).map (fun n => -(n : Int))
  | '+' :: ds => (digitsToNat ds).map (fun n => (n : Int))
  | ds => (digitsToNat ds).map (fun n => (n : Int))

/-- Outcome of save_data on one buffered line: skipped when it has fewer
than 5 comma-separated fields, a parsed row when the first five fields are
integers, bad when a field raises ValueError in int(). -/
inductive LineParse
  | skip
  | row (r : CalRow)
  | bad
deriving DecidableEq

/-- The per-line body of the parsing loop of save_data (lines 203-212):
split on commas, keep rows with at least five fields, parse the first five
fields with int(). -/
def parseLine (l : Line) : LineParse :=
  match l.splitOn commaChar with
  | p0 :: p1 :: p2 :: p3 :: p4 :: _ =>
    match pyInt p0, pyInt p1, pyInt p2, pyInt p3, pyInt p4 with
    | some a, some b, some c, some d, some e => .row ⟨a, b, c, d, e⟩
    | _, _, _, _, _ => .bad
  | _ => .skip

/-- The parsing loop of save_data over all buffered lines; none models an
uncaught ValueError aborting save_data, short rows are dropped silently,
order is preserved. -/
def parseRows : List Line → Option (List CalRow)
  | [] => some []
  | l :: ls =>
    match parseLine l with
    | .skip => parseRows ls
    | .bad => none
    | .row r => (parseRows ls).map (fun rs => r :: rs)

/-- Result of one save_data call: the persisted table on success, a
ValueError escaping from int() during parsing, or a failure of the
DataFrame.to_csv file write (modelled by the write oracle). -/
inductive SaveResult
  | ok (rows : List CalRow)
  | parseExn
  | writeExn
deriving DecidableEq

/-- save_data (lines 197-222): parse every buffered line, then write the
table to the target file; writeOk says whether the write succeeds. -/
def save_data (lines : List Line) (writeOk : Bool) : SaveResult :=
  match parseRows lines with
  | none => .parseExn
  | some rows => if writeOk then .ok rows else .writeExn

/-- One configured distance paired with the channel script its collection
will observe. -/
abbrev Job := Int × List Ev

/-- The mutable accumulation state of main's acquisition loop: all_data,
completed_distances, the checkpoint tables successfully written so far,
and the index of the next save_data invocation for the write oracle. -/
structure LoopState where
  allData : List Line
  completed : List Int
  tempSaves : List (List CalRow)
  saveIdx : Nat
deriving DecidableEq

/-- How main's try block is left: loop exhausted, KeyboardInterrupt
caught, a SerialException propagating, a save_data exception propagating,
or an indefinitely blocked read. -/
inductive LoopExit
  | finished
  | ki
  | ioProp
  | saveProp
  | blockedForever
deriving DecidableEq

/-- The for-loop of main (lines 294-305): i is the 1-based enumeration
index, n the number of configured distances; after each completed distance
its lines extend all_data, and when i is a multiple of 3 or the last index
a checkpoint save_data runs on all accumulated data; a save failure
escapes the try block since only KeyboardInterrupt is handled. -/
def sessionLoop (w : Nat → Bool) (n : Nat) : List Job → Nat → LoopState → LoopState × LoopExit
  | [], _, st => (st, .finished)
  | jb :: rest, i, st =>
    match collect_data_for_distance jb.2 with
    | .interrupted => (st, .ki)
    | .ioError => (st, .ioProp)
    | .blocked => (st, .blockedForever)
    | .done ls =>
      let st1 : LoopState := ⟨st.allData ++ ls, st.completed ++ [jb.1], st.tempSaves, st.saveIdx⟩
      if i % 3 = 0 ∨ i = n then
        match save_data st1.allData (w st1.saveIdx) with
        | .ok rows => sessionLoop w n rest (i + 1) ⟨st1.allData, st1.completed, st1.tempSaves ++ [rows], st1.saveIdx + 1⟩
        | .parseExn => (st1, .saveProp)
        | .writeExn => (st1, .saveProp)
      else sessionLoop w n rest (i + 1) st1

/-- How the whole session ends, as observable from outside main. -/
inductive SessEnd
  | normal
  | noData
  | blocked
  | ioCrashed
  | crashedSave
deriving DecidableEq

/-- Observable outcome of a session: the checkpoint tables written, the
final table if the final save_data ran and succeeded, the completed
distances, and the kind of ending. -/
structure SessionOutcome where
  tempSaves : List (List CalRow)
  finalSave : Option (List CalRow)
  completed : List Int
  ending : SessEnd
deriving DecidableEq

/-- main's acquisition phase (lines 291-329): run the loop; a propagating
SerialException or save exception skips the final block (only the finally
close runs), while loop exhaustion and a caught KeyboardInterrupt fall
through to the final save_data on all accumulated data when it is
non-empty. -/
def runSession (w : Nat → Bool) (jobs : List Job) : SessionOutcome :=
  match sessionLoop w jobs.length jobs 1 ⟨[], [], [], 0⟩ with
  | (st, .ioProp) => ⟨st.tempSaves, none, st.completed, .ioCrashed⟩
  | (st, .saveProp) => ⟨st.tempSaves, none, st.completed, .crashedSave⟩
  | (st, .blockedForever) => ⟨st.tempSaves, none, st.completed, .blocked⟩
  | (st, .finished) | (st, .ki) =>
    if st.allData = [] then ⟨st.tempSaves, none, st.completed, .noData⟩
    else
      match save_data st.allData (w st.saveIdx) with
      | .ok rows => ⟨st.tempSaves, some rows, st.completed, .normal⟩
      | .parseExn => ⟨st.tempSaves, none, st.completed, .crashedSave⟩
      | .writeExn => ⟨st.tempSaves, none, st.completed, .crashedSave⟩

/-- The lines a collect result contributes to all_data. -/
def linesOfResult : CollectResult → List Line
  | .done ls => ls
  | _ => []

/-- The concatenation of the data lines yielded by a list of jobs. -/
def jobLines : List Job → List Line
  | [] => []
  | jb :: rest => linesOfResult (collect_data_for_distance jb.2) ++ jobLines rest

/-- Outcome of one serial.Serial open attempt inside connect_serial: a
successful open, the busy or access-denied SerialException class, any
other SerialException, or a non-serial exception. -/
inductive AttemptResult
  | ok
  | busy
  | serialOther
  | unknown
deriving DecidableEq

/-- Result of connect_serial: a channel obtained on a given attempt index,
or a fatal sys.exit from the corresponding failure class, or a fall
through of the for-loop without any attempt (max_retries = 0). -/
inductive ConnectResult
  | connected (attempt : Nat)
  | fatalBusy
  | fatalOther
  | fatalUnknown
  | noAttempt
deriving DecidableEq

/-- The for attempt in range(max_retries) loop of connect_serial (lines
85-129): every failure class retries while attempts remain (the busy
class after an operator prompt, the others after a pause) and calls
sys.exit(1) on the last attempt. -/
def connectGo (oc : Nat → AttemptResult) : Nat → Nat → ConnectResult
  | _, 0 => .noAttempt
  | attempt, remaining + 1 =>
    match oc attempt with
    | .ok => .connected attempt
    | .busy => if 0 < remaining then connectGo oc (attempt + 1) remaining else .fatalBusy
    | .serialOther => if 0 < remaining then connectGo oc (attempt + 1) remaining else .fatalOther
    | .unknown => if 0 < remaining then connectGo oc (attempt + 1) remaining else .fatalUnknown

/-- connect_serial(port, max_retries=3) with the per-attempt open outcomes
given by the oracle oc. -/
def connect_serial (oc : Nat → AttemptResult) (maxRetries : Nat) : ConnectResult :=
  connectGo oc 0 maxRetries

/-- A serial endpoint as enumerated by list_ports: a device identifier and
a descriptor string. -/
structure PortInfo where
  device : Nat
  description : List Char
deriving DecidableEq

/-- Descriptor token used by the auto-detect heuristic. -/
def arduinoTok : Line := "Arduino".toList

/-- Descriptor token used by the auto-detect heuristic. -/
def ch340Tok : Line := "CH340".toList

/-- Descriptor token used by the auto-detect heuristic. -/
def usbTok : Line := "USB".toList

/-- The heuristic of find_arduino_port line 66: the description contains
one of the known device tokens as a substring. -/
def isArduinoDesc (p : PortInfo) : Bool :=
  isSubstrOf arduinoTok p.description || isSubstrOf ch340Tok p.description ||
    isSubstrOf usbTok p.description

/-- Result of find_arduino_port: sys.exit on zero ports, an automatically
selected device, or the interactive selection prompt. -/
inductive LocateResult
  | noPorts
  | auto (device : Nat)
  | prompt
deriving DecidableEq

/-- find_arduino_port (lines 43-79): exit when no ports, pick the single
port when exactly one exists, otherwise return the first port whose
description matches the heuristic, falling back to the manual prompt. -/
def find_arduino_port (ports : List PortInfo) : LocateResult :=
  match ports with
  | [] => .noPorts
  | [p] => .auto p.device
  | p0 :: p1 :: rest =>
    match (p0 :: p1 :: rest).find? isArduinoDesc with
    | some p => .auto p.device
    | none => .prompt

/-- In-flight state of the incremental UTF-8 decoder: the number of
continuation bytes still needed, the scalar bits accumulated so far, and
the admissible range of the next byte (the range of the first continuation
byte depends on the lead, rejecting overlong encodings, surrogates and
values beyond U+10FFFF). -/
structure Utf8Pend where
  need : Nat
  val : Nat
  lo : Nat
  hi : Nat
deriving DecidableEq

/-- Classification of a byte arriving with no decode in flight. -/
inductive LeadClass
  | emit (c : Nat)
  | start (p : Utf8Pend)
  | drop
deriving DecidableEq

/-- Classify a lead byte: ASCII is emitted directly; C2-DF, E0-EF and
F0-F4 open a multi-byte sequence with the appropriate first-continuation
range; stray continuation bytes, the overlong leads C0-C1 and the invalid
leads F5-FF are ill-formed. -/
def utf8Lead (b : Nat) : LeadClass :=
  if b < 0x80 then .emit b
  else if b < 0xC2 then .drop
  else if b < 0xE0 then .start ⟨1, b - 0xC0, 0x80, 0xC0⟩
  else if b < 0xF0 then
    .start ⟨2, b - 0xE0, if b = 0xE0 then 0xA0 else 0x80, if b = 0xED then 0xA0 else 0xC0⟩
  else if b < 0xF5 then
    .start ⟨3, b - 0xF0, if b = 0xF0 then 0x90 else 0x80, if b = 0xF4 then 0x90 else 0xC0⟩
  else .drop

/-- bytes.decode('utf-8', errors='ignore') as used at line 172, as the
incremental CPython decoder: well-formed sequences are emitted; on an
ill-formed byte the invalid prefix is dropped and the decoder resumes at
the current byte; a truncated final sequence is dropped. -/
def utf8IgnoreGo : List Nat → Option Utf8Pend → List Nat
  | [], _ => []
  | b :: bs, none =>
    match utf8Lead b with
    | .emit c => c :: utf8IgnoreGo bs none
    | .start p => utf8IgnoreGo bs (some p)
    | .drop => utf8IgnoreGo bs none
  | b :: bs, some p =>
    if p.lo ≤ b ∧ b < p.hi then
      if p.need ≤ 1 then (p.val * 0x40 + (b - 0x80)) :: utf8IgnoreGo bs none
      else utf8IgnoreGo bs (some ⟨p.need - 1, p.val * 0x40 + (b - 0x80), 0x80, 0xC0⟩)
    else
      match utf8Lead b with
      | .emit c => c :: utf8IgnoreGo bs none
      | .start q => utf8IgnoreGo bs (some q)
      | .drop => utf8IgnoreGo bs none

/-- The total decode of a whole byte string with errors ignored. -/
def utf8Ignore (bs : List Nat) : List Nat := utf8IgnoreGo bs none

/-- Strict UTF-8 decoding (errors='strict'): identical automaton, but an
ill-formed or truncated sequence yields none, modelling the
UnicodeDecodeError that errors='ignore' suppresses. -/
def utf8StrictGo : List Nat → Option Utf8Pend → Option (List Nat)
  | [], none => some []
  | [], some _ => none
  | b :: bs, none =>
    match utf8Lead b with
    | .emit c => (utf8StrictGo bs none).map (fun cs => c :: cs)
    | .start p => utf8StrictGo bs (some p)
    | .drop => none
  | b :: bs, some p =>
    if p.lo ≤ b ∧ b < p.hi then
      if p.need ≤ 1 then (utf8StrictGo bs none).map (fun cs => (p.val * 0x40 + (b - 0x80)) :: cs)
      else utf8StrictGo bs (some ⟨p.need - 1, p.val * 0x40 + (b - 0x80), 0x80, 0xC0⟩)
    else none

/-- The fallible strict decode of a whole byte string. -/
def utf8Strict (bs : List Nat) : Option (List Nat) := utf8StrictGo bs none

/-- A Unicode scalar value: in range and not a surrogate. -/
def validScalar (n : Nat) : Prop := n < 0x110000 ∧ ¬(0xD800 ≤ n ∧ n < 0xE000)

/-- Whitespace codepoints stripped by str.strip() (the principal Python
whitespace codepoints). -/
def isSpaceNat (n : Nat) : Bool :=
  decide (n = 0x20 ∨ n = 0x09 ∨ n = 0x0A ∨ n = 0x0D ∨ n = 0x0B ∨ n = 0x0C ∨
    n = 0x1C ∨ n = 0x1D ∨ n = 0x1E ∨ n = 0x1F ∨ n = 0x85 ∨ n = 0xA0)

/-- str.strip(): drop whitespace from both ends. -/
def pyStripN (l : List Nat) : List Nat :=
  ((l.dropWhile isSpaceNat).reverse.dropWhile isSpaceNat).reverse

/-- ser.readline().decode('utf-8', errors='ignore').strip() at line 172,
from the raw bytes of one line to the processed text. -/
def decodedLine (bs : List Nat) : List Nat := pyStripN (utf8Ignore bs)

/-- A sample well-formed device data row for distance 5. -/
def rowLine5 : Line := "5,0,400,410,405".toList

/-- The parse of rowLine5. -/
def row5 : CalRow := ⟨5, 0, 400, 410, 405⟩

/-- A device script for one distance: start marker, one data row, end
marker. -/
def okScript : List Ev := [.line startMarker, .line rowLine5, .line endMarker]

/-- Write oracle under which every file write succeeds. -/
def wTrue : Nat → Bool := fun _ => true

/-- Write oracle under which every file write fails. -/
def wFalse : Nat → Bool := fun _ => false

/-- A start-of-block line containing the marker with extra content. -/
def startish : Line := "### DATA RECORD START ###".toList

/-- An end-of-block line containing the marker with extra content. -/
def endish : Line := "DATA RECORD END (trailing)".toList

/-- Connect oracle whose first open raises a non-busy SerialException
(endpoint absent) and whose second open succeeds. -/
def ocOther1 : Nat → AttemptResult := fun k => if k = 0 then .serialOther else .ok

/-- A serial endpoint whose description matches the heuristic. -/
def portA : PortInfo := ⟨0, "USB Serial A".toList⟩

/-- A second serial endpoint whose description also matches. -/
def portB : PortInfo := ⟨1, "USB Serial B".toList⟩

/-- A serial endpoint whose description matches no heuristic token. -/
def portC : PortInfo := ⟨2, "Bluetooth Modem".toList⟩

/-- Invariant on an in-flight decode: the pending byte-ranges only accept
continuation bytes, and however the acceptable continuation bytes are
chosen, the completed sequence denotes a valid Unicode scalar. -/
def pendInv (p : Utf8Pend) : Prop :=
  0x80 ≤ p.lo ∧ p.hi ≤ 0xC0 ∧
    ((p.need = 1 ∧ ∀ x, p.lo ≤ x → x < p.hi →
        validScalar (p.val * 0x40 + (x - 0x80))) ∨
     (p.need = 2 ∧ ∀ x, p.lo ≤ x → x < p.hi → ∀ y, 0x80 ≤ y → y < 0xC0 →
        validScalar ((p.val * 0x40 + (x - 0x80)) * 0x40 + (y - 0x80))) ∨
     (p.need = 3 ∧ ∀ x, p.lo ≤ x → x < p.hi → ∀ y, 0x80 ≤ y → y < 0xC0 →
        ∀ z, 0x80 ≤ z → z < 0xC0 →
        validScalar (((p.val * 0x40 + (x - 0x80)) * 0x40 + (y - 0x80)) * 0x40 + (z - 0x80))))

/-- Invariant of the acquisition loop: every checkpoint table written so
far is the parse of some prefix of the accumulated raw data. -/
def savesInv (st : LoopState) : Prop :=
  ∀ t ∈ st.tempSaves, ∃ pre, pre <+: st.allData ∧ parseRows pre = some t

theorem parseRows_append (xs ys : List Line) :
    parseRows (xs ++ ys) =
      (parseRows xs).bind (fun a => (parseRows ys).map (fun b => a ++ b)) := by
  induction xs with
  | nil =>
    cases h : parseRows ys <;> simp [parseRows, h]
  | cons l ls ih =>
    cases hp : parseLine l with
    | skip => simp [parseRows, hp, ih]
    | bad => simp [parseRows, hp]
    | row r =>
      simp only [List.cons_append, parseRows, hp]
      cases h1 : parseRows ls <;> cases h2 : parseRows ys <;> simp [ih, h1, h2]

theorem parseRows_isSome_left (xs ys : List Line)
    (h : (parseRows (xs ++ ys)).isSome = true) : (parseRows xs).isSome = true := by
  rw [parseRows_append] at h
  cases hx : parseRows xs with
  | none => rw [hx] at h; simp at h
  | some a => simp

theorem parseRows_prefix_of_append (xs ys : List Line) (r a : List CalRow)
    (hfull : parseRows (xs ++ ys) = some r) (hx : parseRows xs = some a) : a <+: r := by
  rw [parseRows_append, hx] at hfull
  cases hy : parseRows ys with
  | none => rw [hy] at hfull; simp at hfull
  | some b =>
    rw [hy] at hfull
    have h2 : some (a ++ b) = some r := hfull
    exact ⟨b, Option.some.inj h2⟩

/-- Claim C4, counterexample: the device row 1,2,3,4,5,6 has six fields,
so its field count does not match the five-field schema, yet save_data
keeps it in the final table (parsing its first five fields) instead of
dropping it. -/
theorem c4_counterexample :
    (("1,2,3,4,5,6".toList).splitOn commaChar).length ≠ 5 ∧
    parseRows ["1,2,3,4,5,6".toList] = some [⟨1, 2, 3, 4, 5⟩] := by
  decide

/-- Claim C4 (amended): a buffered row with fewer than five
comma-separated fields is dropped by finalization and never aborts the
save: parsing simply continues with the remaining rows unchanged. -/
theorem c4_amended (l : Line) (ls : List Line)
    (h : (l.splitOn commaChar).length < 5) : parseRows (l :: ls) = parseRows ls := by
  have hskip : parseLine l = .skip := by
    unfold parseLine
    rcases hs : l.splitOn commaChar with _ | ⟨p0, _ | ⟨p1, _ | ⟨p2, _ | ⟨p3, _ | ⟨p4, t⟩⟩⟩⟩⟩ <;>
      first
        | rfl
        | (exfalso; rw [hs] at h; simp at h; omega)
  simp [parseRows, hskip]

/-- Claim C4 witness: a concrete two-field row is dropped and the rest of
the buffer parses as before. -/
theorem c4_witness : parseRows ["1,2".toList, rowLine5] = parseRows [rowLine5] :=
  c4_amended ("1,2".toList) [rowLine5] (by decide)

theorem connectGo_ok (oc : Nat → AttemptResult) (a r : Nat) (h : oc a = .ok) :
    connectGo oc a (r + 1) = .connected a := by
  simp [connectGo, h]

theorem connectGo_err (oc : Nat → AttemptResult) (a r : Nat) (h : oc a ≠ .ok) :
    connectGo oc a (r + 2) = connectGo oc (a + 1) (r + 1) := by
  rcases h' : oc a <;> simp [connectGo, h'] <;> exact absurd h' h

theorem connectGo_last_err (oc : Nat → AttemptResult) (a : Nat) (h : oc a ≠ .ok) :
    ∀ k, connectGo oc a 1 ≠ .connected k := by
  intro k
  rcases h' : oc a <;> simp [connectGo, h'] <;> exact absurd h' h

/-- Claim C5, counterexample: the first open attempt fails with a
SerialException outside the busy/access-denied class, yet connect_serial
retries and succeeds on the second attempt instead of failing fatally
with no retry. -/
theorem c5_counterexample :
    ocOther1 0 = .serialOther ∧ connect_serial ocOther1 3 = .connected 1 := by
  decide

/-- Claim C5 (amended): connect_serial retries every failure class, not
only busy/access-denied: with the default three attempts it returns a
channel on attempt k exactly when attempt k is the first successful open
and k is within the attempt bound; exhausting the bound is fatal for
every class. -/
theorem c5_amended (oc : Nat → AttemptResult) (k : Nat) :
    connect_serial oc 3 = .connected k ↔
      (k < 3 ∧ oc k = .ok ∧ ∀ j, j < k → oc j ≠ .ok) := by
  unfold connect_serial
  by_cases h0 : oc 0 = .ok
  · rw [show (3 : Nat) = 2 + 1 from rfl, connectGo_ok oc 0 2 h0]
    constructor
    · intro h
      injection h with hk
      subst hk
      exact ⟨by omega, h0, fun j hj => absurd hj (by omega)⟩
    · rintro ⟨hk, hok, hmin⟩
      rcases Nat.eq_zero_or_pos k with h | h
      · subst h; rfl
      · exact absurd h0 (hmin 0 h)
  · rw [show (3 : Nat) = 1 + 2 from rfl, connectGo_err oc 0 1 h0]
    by_cases h1 : oc 1 = .ok
    · rw [show (1 : Nat) + 1 = 1 + 1 from rfl, connectGo_ok oc 1 1 h1]
      constructor
      · intro h
        injection h with hk
        subst hk
        refine ⟨by omega, h1, fun j hj => ?_⟩
        have : j = 0 := by omega
        subst this; exact h0
      · rintro ⟨hk, hok, hmin⟩
        rcases Nat.lt_trichotomy k 1 with h | h | h
        · have : k = 0 := by omega
          subst this; exact absurd hok h0
        · subst h; rfl
        · exact absurd h1 (hmin 1 h)
    · rw [show (1 : Nat) + 1 = 0 + 2 from rfl, connectGo_err oc 1 0 h1]
      by_cases h2 : oc 2 = .ok
      · rw [show (0 : Nat) + 1 = 0 + 1 from rfl, connectGo_ok oc 2 0 h2]
        constructor
        · intro h
          injection h with hk
          subst hk
          refine ⟨by omega, h2, fun j hj => ?_⟩
          rcases Nat.lt_trichotomy j 1 with hj' | hj' | hj'
          · have : j = 0 := by omega
            subst this; exact h0
          · subst hj'; exact h1
          · omega
        · rintro ⟨hk, hok, hmin⟩
          rcases Nat.lt_trichotomy k 2 with h | h | h
          · rcases Nat.lt_trichotomy k 1 with h' | h' | h'
            · have : k = 0 := by omega
              subst this; exact absurd hok h0
            · subst h'; exact absurd hok h1
            · omega
          · subst h; rfl
          · omega
      · constructor
        · intro h
          exact absurd h (connectGo_last_err oc 2 h2 k)
        · rintro ⟨hk, hok, hmin⟩
          rcases Nat.lt_trichotomy k 2 with h | h | h
          · rcases Nat.lt_trichotomy k 1 with h' | h' | h'
            · have : k = 0 := by omega
              subst this; exact absurd hok h0
            · subst h'; exact absurd hok h1
            · omega
          · subst h; exact absurd hok h2
          · omega

/-- Claim C5 witness: under the oracle that fails once with a non-busy
error and then succeeds, the characterization instantiates at attempt 1. -/
theorem c5_witness : 1 < 3 ∧ ocOther1 1 = .ok ∧ ∀ j, j < 1 → ocOther1 j ≠ .ok :=
  (c5_amended ocOther1 1).mp (by decide)

theorem find?_first_match (f : PortInfo → Bool) :
    ∀ (ps1 : List PortInfo) (p : PortInfo) (ps2 : List PortInfo),
      (∀ q ∈ ps1, f q = false) → f p = true →
      (ps1 ++ p :: ps2).find? f = some p := by
  intro ps1
  induction ps1 with
  | nil => intro p ps2 _ hp; exact List.find?_cons_of_pos _ hp
  | cons a t ih =>
    intro p ps2 hall hp
    have ha : ¬f a = true := by simp [hall a (by simp)]
    rw [List.cons_append, List.find?_cons_of_neg _ ha]
    exact ih p ps2 (fun q hq => hall q (by simp [hq])) hp

/-- Claim C8, counterexample: two endpoints both match the descriptor
heuristic, so the match is not unique, yet find_arduino_port selects the
first match automatically instead of deferring to an external decision. -/
theorem c8_counterexample :
    isArduinoDesc portA = true ∧ isArduinoDesc portB = true ∧
    find_arduino_port [portA, portB] = .auto 0 := by
  decide

/-- Claim C8 (amended): with several endpoints, find_arduino_port selects
the first endpoint whose descriptor matches the heuristic whenever at
least one matches (unique or not), and defers to the interactive prompt
exactly when no descriptor matches. -/
theorem c8_amended :
    (∀ (ps1 : List PortInfo) (p : PortInfo) (ps2 : List PortInfo),
        2 ≤ (ps1 ++ p :: ps2).length → (∀ q ∈ ps1, isArduinoDesc q = false) →
        isArduinoDesc p = true →
        find_arduino_port (ps1 ++ p :: ps2) = .auto p.device) ∧
    (∀ ports : List PortInfo, 2 ≤ ports.length →
        (∀ q ∈ ports, isArduinoDesc q = false) →
        find_arduino_port ports = .prompt) := by
  constructor
  · intro ps1 p ps2 hlen hall hp
    cases hps : ps1 ++ p :: ps2 with
    | nil => simp at hps
    | cons a l1 =>
      cases l1 with
      | nil =>
        rw [hps] at hlen
        simp at hlen
      | cons b t =>
        have hfind : (a :: b :: t).find? isArduinoDesc = some p := by
          rw [← hps]
          exact find?_first_match isArduinoDesc ps1 p ps2 hall hp
        simp [find_arduino_port, hfind]
  · intro ports hlen hall
    cases hps : ports with
    | nil => rw [hps] at hlen; simp at hlen
    | cons a l1 =>
      cases l1 with
      | nil => rw [hps] at hlen; simp at hlen
      | cons b t =>
        have hfind : (a :: b :: t).find? isArduinoDesc = none := by
          rw [List.find?_eq_none]
          intro q hq
          simp [hall q (by rw [hps]; exact hq)]
        simp [find_arduino_port, hfind]

/-- Claim C8 witness: a non-matching endpoint followed by a matching one
is resolved automatically to the matching endpoint. -/
theorem c8_witness : find_arduino_port [portC, portA] = .auto 0 := by
  have h := c8_amended.1 [portC] portA [] (by decide) (by decide) (by decide)
  simpa using h

/-- Claim C1, counterexample: a line containing the start marker with
extra surrounding content does start recording, and a line containing
the end marker with extra trailing content does end the block: the
collected result retains the data row between the two, although neither
line is exactly equal to its marker literal. -/
theorem c1_counterexample :
    collect_data_for_distance [.line startish, .line rowLine5, .line endish] =
        .done [rowLine5] ∧
    startish ≠ startMarker ∧ endish ≠ endMarker ∧
    isSubstrOf startMarker startish = true ∧ isSubstrOf endMarker endish = true := by
  decide

/-- Claim C1 (amended): marker matching is by substring containment, not
exact equality: in AWAITING_START a lone line ends the block exactly when
it contains the end marker but not the start marker, and recording starts
(so that a following data row is collected up to an exact end marker)
exactly when the line contains the start marker, extra content
notwithstanding. -/
theorem c1_amended (l : Line) :
    (collect_data_for_distance [Ev.line l] = .done [] ↔
      (isSubstrOf startMarker l = false ∧ isSubstrOf endMarker l = true)) ∧
    (collect_data_for_distance [Ev.line l, Ev.line rowLine5, Ev.line endMarker] =
        .done [rowLine5] ↔ isSubstrOf startMarker l = true) := by
  by_cases hl : l = []
  · subst hl
    exact ⟨by decide, by decide⟩
  · by_cases hs : isSubstrOf startMarker l = true
    · constructor
      · simp [collect_data_for_distance, collectLoop, hl, hs]
      · simp only [collect_data_for_distance, collectLoop, if_neg hl, hs, if_true]
        constructor
        · intro _; trivial
        · intro _; decide
    · have hs' : isSubstrOf startMarker l = false := by
        simpa using hs
      by_cases he : isSubstrOf endMarker l = true
      · constructor
        · simp [collect_data_for_distance, collectLoop, hl, hs', he]
        · simp only [collect_data_for_distance, collectLoop, if_neg hl, hs', he,
            Bool.false_eq_true, if_false, if_true]
          constructor
          · intro h; exact absurd h (by simp)
          · intro h; simp at h
      · have he' : isSubstrOf endMarker l = false := by
          simpa using he
        constructor
        · simp [collect_data_for_distance, collectLoop, hl, hs', he']
        · simp only [collect_data_for_distance, collectLoop, if_neg hl, hs', he',
            Bool.false_eq_true, if_false, Bool.false_and]
          constructor
          · intro h
            exact absurd h (by decide)
          · intro h; simp at h

/-- Claim C1 witness: a line with surrounding content around the start
marker starts recording, so the following data row is collected. -/
theorem c1_witness :
    collect_data_for_distance [Ev.line startish, Ev.line rowLine5, Ev.line endMarker] =
      .done [rowLine5] :=
  (c1_amended startish).2.mpr (by decide)

theorem collectLoop_no_hdr :
    ∀ (script : List Ev) (rec : Bool) (acc ls : List Line),
      hdrLine ∉ acc → collectLoop script rec acc = .done ls → hdrLine ∉ ls := by
  intro script
  induction script with
  | nil => intro rec acc ls _ hc; simp [collectLoop] at hc
  | cons e rest ih =>
    intro rec acc ls h hc
    cases e with
    | interrupt => simp [collectLoop] at hc
    | ioErr => simp [collectLoop] at hc
    | line l =>
      by_cases hl : l = []
      · rw [collectLoop, if_pos hl] at hc
        exact ih rec acc ls h hc
      · by_cases hs : isSubstrOf startMarker l = true
        · rw [collectLoop, if_neg hl, if_pos hs] at hc
          exact ih true acc ls h hc
        · by_cases he : isSubstrOf endMarker l = true
          · rw [collectLoop, if_neg hl, if_neg hs, if_pos he] at hc
            injection hc with hacc
            subst hacc
            exact h
          · by_cases hd : (rec && !(hdrStart.isPrefixOf l) && l.contains commaChar) = true
            · rw [collectLoop, if_neg hl, if_neg hs, if_neg he, if_pos hd] at hc
              have hlne : l ≠ hdrLine := by
                intro heq
                have hpre : hdrStart.isPrefixOf l = false := by
                  rcases Bool.and_eq_true_iff.mp hd with ⟨h1, _⟩
                  rcases Bool.and_eq_true_iff.mp h1 with ⟨_, h2⟩
                  simpa using h2
                rw [heq] at hpre
                have : hdrStart.isPrefixOf hdrLine = true := by decide
                rw [this] at hpre
                simp at hpre
              refine ih rec (acc ++ [l]) ls ?_ hc
              intro hmem
              rcases List.mem_append.mp hmem with hmem | hmem
              · exact h hmem
              · simp at hmem
                exact hlne hmem.symm
            · rw [collectLoop, if_neg hl, if_neg hs, if_neg he, if_neg hd] at hc
              exact ih rec acc ls h hc

/-- Claim C9: the literal column-header line satisfies the generic
row-acceptance shape (non-empty and containing the field separator), yet
it never appears among the collected data lines of any distance, and
hence in no accumulated session data. -/
theorem c9_theorem :
    (hdrLine ≠ [] ∧ hdrLine.contains commaChar = true) ∧
    (∀ (script : List Ev) (ls : List Line),
        collect_data_for_distance script = .done ls → hdrLine ∉ ls) ∧
    (∀ jobs : List Job, hdrLine ∉ jobLines jobs) := by
  refine ⟨by decide, ?_, ?_⟩
  · intro script ls h
    exact collectLoop_no_hdr script false [] ls (by simp) h
  · intro jobs
    induction jobs with
    | nil => simp [jobLines]
    | cons jb rest ih =>
      simp only [jobLines, List.mem_append]
      rintro (hmem | hmem)
      · cases hcol : collect_data_for_distance jb.2 with
        | done ls =>
          rw [hcol] at hmem
          exact collectLoop_no_hdr jb.2 false [] ls (by simp) hcol (by simpa using hmem)
        | interrupted => rw [hcol] at hmem; simp [linesOfResult] at hmem
        | ioError => rw [hcol] at hmem; simp [linesOfResult] at hmem
        | blocked => rw [hcol] at hmem; simp [linesOfResult] at hmem
      · exact ih hmem

/-- Claim C9 witness: a session block in which the device emits the
header between the markers yields a table without the header line. -/
theorem c9_witness : hdrLine ∉ [rowLine5] :=
  c9_theorem.2.1 [Ev.line startMarker, Ev.line hdrLine, Ev.line rowLine5, Ev.line endMarker]
    [rowLine5] (by decide)

theorem save_data_ok (L : List Line) (bfl : Bool) (rows : List CalRow)
    (h : save_data L bfl = .ok rows) : parseRows L = some rows := by
  unfold save_data at h
  rcases hp : parseRows L with _ | r
  · rw [hp] at h; simp at h
  · rw [hp] at h
    rcases bfl with _ | _
    · simp at h
    · simp at h
      rw [h]

theorem sessionLoop_cons_done (w : Nat → Bool) (n : Nat) (jb : Job) (rest : List Job)
    (i : Nat) (st : LoopState) (ls : List Line)
    (hls : collect_data_for_distance jb.2 = .done ls) :
    sessionLoop w n (jb :: rest) i st =
      if i % 3 = 0 ∨ i = n then
        match save_data (st.allData ++ ls) (w st.saveIdx) with
        | .ok rows =>
          sessionLoop w n rest (i + 1)
            ⟨st.allData ++ ls, st.completed ++ [jb.1], st.tempSaves ++ [rows], st.saveIdx + 1⟩
        | .parseExn =>
          (⟨st.allData ++ ls, st.completed ++ [jb.1], st.tempSaves, st.saveIdx⟩, .saveProp)
        | .writeExn =>
          (⟨st.allData ++ ls, st.completed ++ [jb.1], st.tempSaves, st.saveIdx⟩, .saveProp)
      else
        sessionLoop w n rest (i + 1)
          ⟨st.allData ++ ls, st.completed ++ [jb.1], st.tempSaves, st.saveIdx⟩ := by
  simp only [sessionLoop, hls]

theorem sessionLoop_cons_interrupted (w : Nat → Bool) (n : Nat) (jb : Job) (rest : List Job)
    (i : Nat) (st : LoopState)
    (hls : collect_data_for_distance jb.2 = .interrupted) :
    sessionLoop w n (jb :: rest) i st = (st, .ki) := by
  simp only [sessionLoop, hls]

theorem sessionLoop_cons_ioError (w : Nat → Bool) (n : Nat) (jb : Job) (rest : List Job)
    (i : Nat) (st : LoopState)
    (hls : collect_data_for_distance jb.2 = .ioError) :
    sessionLoop w n (jb :: rest) i st = (st, .ioProp) := by
  simp only [sessionLoop, hls]

theorem sessionLoop_adv (w : Nat → Bool) (n : Nat) :
    ∀ (jobs1 rest : List Job) (i : Nat) (st : LoopState),
      (∀ jb ∈ jobs1, ∃ ls, collect_data_for_distance jb.2 = .done ls) →
      (∀ k, w k = true) →
      (parseRows (st.allData ++ jobLines jobs1)).isSome = true →
      ∃ ts si,
        sessionLoop w n (jobs1 ++ rest) i st =
          sessionLoop w n rest (i + jobs1.length)
            ⟨st.allData ++ jobLines jobs1, st.completed ++ jobs1.map Prod.fst, ts, si⟩ := by
  intro jobs1
  induction jobs1 with
  | nil =>
    intro rest i st _ _ _
    refine ⟨st.tempSaves, st.saveIdx, ?_⟩
    simp [jobLines]
  | cons jb jobs1' ih =>
    intro rest i st hdone hw hps
    obtain ⟨ls, hls⟩ := hdone jb (by simp)
    have hjl : jobLines (jb :: jobs1') = ls ++ jobLines jobs1' := by
      simp [jobLines, hls, linesOfResult]
    rw [hjl, ← List.append_assoc] at hps
    rw [List.cons_append, sessionLoop_cons_done w n jb (jobs1' ++ rest) i st ls hls]
    by_cases hck : i % 3 = 0 ∨ i = n
    · have hsome : (parseRows (st.allData ++ ls)).isSome = true :=
        parseRows_isSome_left _ _ hps
      obtain ⟨rows, hrows⟩ := Option.isSome_iff_exists.mp hsome
      have hsave : save_data (st.allData ++ ls) (w st.saveIdx) = .ok rows := by
        simp [save_data, hrows, hw st.saveIdx]
      obtain ⟨ts, si, hrec⟩ := ih rest (i + 1)
        ⟨st.allData ++ ls, st.completed ++ [jb.1], st.tempSaves ++ [rows], st.saveIdx + 1⟩
        (fun jb' h => hdone jb' (by simp [h])) hw (by simpa using hps)
      refine ⟨ts, si, ?_⟩
      rw [if_pos hck]
      simp only [hsave]
      rw [hrec]
      congr 1
      · simp only [List.length_cons]
        omega
      · simp [hjl, List.append_assoc]
    · obtain ⟨ts, si, hrec⟩ := ih rest (i + 1)
        ⟨st.allData ++ ls, st.completed ++ [jb.1], st.tempSaves, st.saveIdx⟩
        (fun jb' h => hdone jb' (by simp [h])) hw (by simpa using hps)
      refine ⟨ts, si, ?_⟩
      rw [if_neg hck, hrec]
      congr 1
      · simp only [List.length_cons]
        omega
      · simp [hjl, List.append_assoc]

theorem sessionLoop_saves (w : Nat → Bool) (n : Nat) :
    ∀ (jobs : List Job) (i : Nat) (st st' : LoopState) (ex : LoopExit),
      sessionLoop w n jobs i st = (st', ex) → savesInv st →
      st.allData <+: st'.allData ∧ savesInv st' := by
  intro jobs
  induction jobs with
  | nil =>
    intro i st st' ex h hin
    simp only [sessionLoop, Prod.mk.injEq] at h
    rw [← h.1]
    exact ⟨List.prefix_refl _, hin⟩
  | cons jb rest ih =>
    intro i st st' ex h hin
    rcases hc : collect_data_for_distance jb.2 with ls | _ | _ | _
    · rw [sessionLoop_cons_done w n jb rest i st ls hc] at h
      have hpre1 : st.allData <+: st.allData ++ ls := List.prefix_append _ _
      have hin1 : savesInv (⟨st.allData ++ ls, st.completed ++ [jb.1], st.tempSaves, st.saveIdx⟩ : LoopState) := by
        intro t ht
        obtain ⟨pre, hp1, hp2⟩ := hin t ht
        exact ⟨pre, hp1.trans hpre1, hp2⟩
      by_cases hck : i % 3 = 0 ∨ i = n
      · rw [if_pos hck] at h
        rcases hs : save_data (st.allData ++ ls) (w st.saveIdx) with rows | _ | _
        · simp only [hs] at h
          have hin2 : savesInv (⟨st.allData ++ ls, st.completed ++ [jb.1],
              st.tempSaves ++ [rows], st.saveIdx + 1⟩ : LoopState) := by
            intro t ht
            rcases List.mem_append.mp ht with ht | ht
            · obtain ⟨pre, hp1, hp2⟩ := hin t ht
              exact ⟨pre, hp1.trans hpre1, hp2⟩
            · simp at ht
              subst ht
              exact ⟨st.allData ++ ls, List.prefix_refl _, save_data_ok _ _ _ hs⟩
          obtain ⟨hq1, hq2⟩ := ih (i + 1) _ st' ex h hin2
          exact ⟨hpre1.trans hq1, hq2⟩
        · rw [hs] at h
          simp only [Prod.mk.injEq] at h
          rw [← h.1]
          exact ⟨hpre1, hin1⟩
        · rw [hs] at h
          simp only [Prod.mk.injEq] at h
          rw [← h.1]
          exact ⟨hpre1, hin1⟩
      · rw [if_neg hck] at h
        obtain ⟨hq1, hq2⟩ := ih (i + 1) _ st' ex h hin1
        exact ⟨hpre1.trans hq1, hq2⟩
    · rw [sessionLoop_cons_interrupted w n jb rest i st hc] at h
      simp only [Prod.mk.injEq] at h
      rw [← h.1]
      exact ⟨List.prefix_refl _, hin⟩
    · rw [sessionLoop_cons_ioError w n jb rest i st hc] at h
      simp only [Prod.mk.injEq] at h
      rw [← h.1]
      exact ⟨List.prefix_refl _, hin⟩
    · simp only [sessionLoop, hc, Prod.mk.injEq] at h
      rw [← h.1]
      exact ⟨List.prefix_refl _, hin⟩

/-- Claim C2, counterexample: distance 5 completes and its rows are in
memory, then the read for distance 10 raises a channel error; the session
crashes with the I/O error propagating, no checkpoint was due yet, and no
save-partial runs, so the accumulated rows are lost rather than persisted
before propagation. -/
theorem c2_counterexample :
    runSession wTrue [(5, okScript), (10, [Ev.ioErr])] = ⟨[], none, [5], .ioCrashed⟩ := by
  decide

/-- Claim C2 (amended): a channel I/O error in a non-terminal state makes
the whole session fail and the error propagate without any
checkpoint-and-save-partial on the way out: the final save does not run,
and only checkpoints already written after earlier multiples of three
completed distances persist anything. -/
theorem c2_amended (w : Nat → Bool) (jobs1 rest : List Job) (d : Int) (evs : List Ev)
    (h1 : ∀ jb ∈ jobs1, ∃ ls, collect_data_for_distance jb.2 = .done ls)
    (h2 : ∀ k, w k = true)
    (h3 : (parseRows (jobLines jobs1)).isSome = true)
    (h4 : collect_data_for_distance evs = .ioError) :
    (runSession w (jobs1 ++ (d, evs) :: rest)).ending = .ioCrashed ∧
    (runSession w (jobs1 ++ (d, evs) :: rest)).finalSave = none ∧
    (runSession w (jobs1 ++ (d, evs) :: rest)).completed = jobs1.map Prod.fst := by
  obtain ⟨ts, si, heq⟩ := sessionLoop_adv w (jobs1 ++ (d, evs) :: rest).length jobs1
    ((d, evs) :: rest) 1 ⟨[], [], [], 0⟩ h1 h2 (by simpa using h3)
  have hstep := sessionLoop_cons_ioError w (jobs1 ++ (d, evs) :: rest).length (d, evs) rest
    (1 + jobs1.length)
    ⟨(⟨[], [], [], 0⟩ : LoopState).allData ++ jobLines jobs1,
      (⟨[], [], [], 0⟩ : LoopState).completed ++ jobs1.map Prod.fst, ts, si⟩ h4
  rw [hstep] at heq
  simp only [runSession, heq]
  simp

/-- Claim C2 witness: the amended behavior at the concrete session of the
counterexample. -/
theorem c2_witness :
    (runSession wTrue [(5, okScript), (10, [Ev.ioErr])]).ending = .ioCrashed ∧
    (runSession wTrue [(5, okScript), (10, [Ev.ioErr])]).finalSave = none ∧
    (runSession wTrue [(5, okScript), (10, [Ev.ioErr])]).completed = [5] := by
  have h := c2_amended wTrue [(5, okScript)] [] 10 [Ev.ioErr]
    (by
      intro jb hjb
      simp only [List.mem_singleton] at hjb
      subst hjb
      exact ⟨[rowLine5], by decide⟩)
    (fun k => rfl) (by decide) (by decide)
  simpa using h

/-- Claim C3: operator cancellation raised inside a blocking read is
caught and leads to the finalize-and-persist path: with the write oracle
succeeding and the accumulated rows parseable, the session ends normally,
the final table is exactly the parse of every line accumulated from the
completed distances, and the completed distances are reported. -/
theorem c3_theorem (w : Nat → Bool) (jobs1 rest : List Job) (d : Int) (evs : List Ev)
    (R : List CalRow)
    (h1 : ∀ jb ∈ jobs1, ∃ ls, collect_data_for_distance jb.2 = .done ls)
    (h2 : ∀ k, w k = true)
    (h3 : parseRows (jobLines jobs1) = some R)
    (h4 : collect_data_for_distance evs = .interrupted)
    (h5 : jobLines jobs1 ≠ []) :
    (runSession w (jobs1 ++ (d, evs) :: rest)).finalSave = some R ∧
    (runSession w (jobs1 ++ (d, evs) :: rest)).ending = .normal ∧
    (runSession w (jobs1 ++ (d, evs) :: rest)).completed = jobs1.map Prod.fst := by
  obtain ⟨ts, si, heq⟩ := sessionLoop_adv w (jobs1 ++ (d, evs) :: rest).length jobs1
    ((d, evs) :: rest) 1 ⟨[], [], [], 0⟩ h1 h2 (by simp [h3])
  have hstep := sessionLoop_cons_interrupted w (jobs1 ++ (d, evs) :: rest).length (d, evs) rest
    (1 + jobs1.length)
    ⟨(⟨[], [], [], 0⟩ : LoopState).allData ++ jobLines jobs1,
      (⟨[], [], [], 0⟩ : LoopState).completed ++ jobs1.map Prod.fst, ts, si⟩ h4
  rw [hstep] at heq
  have hsave : save_data (jobLines jobs1) (w si) = .ok R := by
    simp [save_data, h3, h2 si]
  simp only [runSession, heq]
  simp [h5, hsave]

/-- Claim C3 witness: a cancellation arriving while waiting on the second
distance persists the one completed distance's rows as the final table. -/
theorem c3_witness :
    (runSession wTrue [(5, okScript), (10, [Ev.interrupt])]).finalSave = some [row5] ∧
    (runSession wTrue [(5, okScript), (10, [Ev.interrupt])]).ending = .normal ∧
    (runSession wTrue [(5, okScript), (10, [Ev.interrupt])]).completed = [5] := by
  have h := c3_theorem wTrue [(5, okScript)] [] 10 [Ev.interrupt] [row5]
    (by
      intro jb hjb
      simp only [List.mem_singleton] at hjb
      subst hjb
      exact ⟨[rowLine5], by decide⟩)
    (fun k => rfl) (by decide) (by decide) (by decide)
  simpa using h

/-- Claim C6, counterexample: four distances, all device blocks clean,
but every file write fails; the checkpoint due after the third completed
distance raises, the session crashes there, the fourth distance is never
collected and the final save never runs. -/
theorem c6_counterexample :
    runSession wFalse [(3, okScript), (5, okScript), (7, okScript), (10, okScript)] =
      ⟨[], none, [3, 5, 7], .crashedSave⟩ := by
  decide

/-- Claim C6 (amended): a failing intermediate checkpoint write does
abort the session: the exception escapes the acquisition loop (which
handles only KeyboardInterrupt), the remaining distances are not
collected, and the final save is skipped, so the crash is reported only
as the propagating exception. -/
theorem c6_amended (w : Nat → Bool) (a b c : Job) (jobs2 : List Job)
    (h1 : ∀ jb ∈ [a, b, c], ∃ ls, collect_data_for_distance jb.2 = .done ls)
    (hw : w 0 = false) (h2 : jobs2 ≠ []) :
    (runSession w (a :: b :: c :: jobs2)).ending = .crashedSave ∧
    (runSession w (a :: b :: c :: jobs2)).finalSave = none ∧
    (runSession w (a :: b :: c :: jobs2)).completed = [a.1, b.1, c.1] ∧
    (runSession w (a :: b :: c :: jobs2)).tempSaves = [] := by
  obtain ⟨la, hla⟩ := h1 a (by simp)
  obtain ⟨lb, hlb⟩ := h1 b (by simp)
  obtain ⟨lc, hlc⟩ := h1 c (by simp)
  have hn1 : ¬(1 % 3 = 0 ∨ 1 = (a :: b :: c :: jobs2).length) := by
    simp only [List.length_cons]
    omega
  have hn2 : ¬(2 % 3 = 0 ∨ 2 = (a :: b :: c :: jobs2).length) := by
    simp only [List.length_cons]
    omega
  have hn3 : 3 % 3 = 0 ∨ 3 = (a :: b :: c :: jobs2).length := Or.inl rfl
  have hfull : sessionLoop w (a :: b :: c :: jobs2).length (a :: b :: c :: jobs2) 1
      ⟨[], [], [], 0⟩ =
      (⟨(([] ++ la) ++ lb) ++ lc, (([] ++ [a.1]) ++ [b.1]) ++ [c.1], [], 0⟩, .saveProp) := by
    rw [sessionLoop_cons_done w _ a (b :: c :: jobs2) 1 ⟨[], [], [], 0⟩ la hla, if_neg hn1]
    rw [sessionLoop_cons_done w _ b (c :: jobs2) 2 _ lb hlb, if_neg hn2]
    rw [sessionLoop_cons_done w _ c jobs2 3 _ lc hlc, if_pos hn3]
    rcases hp : parseRows (la ++ (lb ++ lc)) with _ | rows
    · simp [save_data, hp]
    · simp [save_data, hp, hw]
  simp only [runSession, hfull]
  simp

/-- Claim C6 witness: the amended behavior instantiated at a concrete
four-distance session whose writes all fail. -/
theorem c6_witness :
    (runSession wFalse ((3, okScript) :: (5, okScript) :: (7, okScript) :: [(10, okScript)])).ending
        = .crashedSave ∧
    (runSession wFalse ((3, okScript) :: (5, okScript) :: (7, okScript) :: [(10, okScript)])).finalSave
        = none ∧
    (runSession wFalse ((3, okScript) :: (5, okScript) :: (7, okScript) :: [(10, okScript)])).completed
        = [3, 5, 7] ∧
    (runSession wFalse ((3, okScript) :: (5, okScript) :: (7, okScript) :: [(10, okScript)])).tempSaves
        = [] := by
  have h := c6_amended wFalse (3, okScript) (5, okScript) (7, okScript) [(10, okScript)]
    (by
      intro jb hjb
      simp only [List.mem_cons, List.not_mem_nil, or_false] at hjb
      rcases hjb with hjb | hjb | hjb <;> (subst hjb; exact ⟨[rowLine5], by decide⟩))
    rfl (by simp)
  simpa using h

/-- Claim C7, counterexample: in a one-distance session the checkpoint
due on the last loop iteration has exactly the same content as the final
table, so that checkpoint is not a strict prefix of the final table. -/
theorem c7_counterexample :
    (runSession wTrue [(5, okScript)]).tempSaves = [[row5]] ∧
    (runSession wTrue [(5, okScript)]).finalSave = some [row5] := by
  decide

/-- Claim C7 (amended): every checkpoint table written during a session
that produces a final table is a prefix, not necessarily strict, of that
final table in accumulation order (distance completion, then arrival). -/
theorem c7_amended (w : Nat → Bool) (jobs : List Job) (t f : List CalRow)
    (hf : (runSession w jobs).finalSave = some f)
    (ht : t ∈ (runSession w jobs).tempSaves) : t <+: f := by
  unfold runSession at hf ht
  rcases hsl : sessionLoop w jobs.length jobs 1 ⟨[], [], [], 0⟩ with ⟨st, ex⟩
  rw [hsl] at hf ht
  have hinv := sessionLoop_saves w jobs.length jobs 1 ⟨[], [], [], 0⟩ st ex hsl
    (by intro t' ht'; simp at ht')
  cases ex with
  | ioProp => simp at hf
  | saveProp => simp at hf
  | blockedForever => simp at hf
  | finished =>
    by_cases hA : st.allData = []
    · simp [hA] at hf
    · simp only [if_neg hA] at hf ht
      rcases hsv : save_data st.allData (w st.saveIdx) with rows | _ | _
      · simp only [hsv] at hf ht
        simp only [Option.some.injEq] at hf
        subst hf
        obtain ⟨pre, hpre, hparse⟩ := hinv.2 t ht
        obtain ⟨suf, hsuf⟩ := hpre
        have hall : parseRows st.allData = some rows := save_data_ok _ _ _ hsv
        rw [← hsuf] at hall
        exact parseRows_prefix_of_append pre suf rows t hall hparse
      · simp only [hsv] at hf
        simp at hf
      · simp only [hsv] at hf
        simp at hf
  | ki =>
    by_cases hA : st.allData = []
    · simp [hA] at hf
    · simp only [if_neg hA] at hf ht
      rcases hsv : save_data st.allData (w st.saveIdx) with rows | _ | _
      · simp only [hsv] at hf ht
        simp only [Option.some.injEq] at hf
        subst hf
        obtain ⟨pre, hpre, hparse⟩ := hinv.2 t ht
        obtain ⟨suf, hsuf⟩ := hpre
        have hall : parseRows st.allData = some rows := save_data_ok _ _ _ hsv
        rw [← hsuf] at hall
        exact parseRows_prefix_of_append pre suf rows t hall hparse
      · simp only [hsv] at hf
        simp at hf
      · simp only [hsv] at hf
        simp at hf

/-- Claim C7 witness: the prefix relation instantiated at the concrete
one-distance session, where the checkpoint equals the final table. -/
theorem c7_witness : [row5] <+: [row5] :=
  c7_amended wTrue [(5, okScript)] [row5] [row5] (by decide) (by decide)

theorem utf8Lead_emit_valid (b c : Nat) (h : utf8Lead b = .emit c) : validScalar c := by
  unfold utf8Lead at h
  by_cases h1 : b < 0x80
  · rw [if_pos h1] at h
    injection h with hc
    subst hc
    simp only [validScalar]
    omega
  · rw [if_neg h1] at h
    by_cases h2 : b < 0xC2
    · rw [if_pos h2] at h
      exact LeadClass.noConfusion h
    · rw [if_neg h2] at h
      by_cases h3 : b < 0xE0
      · rw [if_pos h3] at h
        exact LeadClass.noConfusion h
      · rw [if_neg h3] at h
        by_cases h4 : b < 0xF0
        · rw [if_pos h4] at h
          exact LeadClass.noConfusion h
        · rw [if_neg h4] at h
          by_cases h5 : b < 0xF5
          · rw [if_pos h5] at h
            exact LeadClass.noConfusion h
          · rw [if_neg h5] at h
            exact LeadClass.noConfusion h

theorem utf8Lead_start_inv (b : Nat) (p : Utf8Pend) (h : utf8Lead b = .start p) :
    pendInv p := by
  unfold utf8Lead at h
  by_cases h1 : b < 0x80
  · rw [if_pos h1] at h
    exact LeadClass.noConfusion h
  · rw [if_neg h1] at h
    by_cases h2 : b < 0xC2
    · rw [if_pos h2] at h
      exact LeadClass.noConfusion h
    · rw [if_neg h2] at h
      by_cases h3 : b < 0xE0
      · rw [if_pos h3] at h
        injection h with hp
        subst hp
        simp only [pendInv]
        refine ⟨by omega, by omega, Or.inl ⟨by trivial, ?_⟩⟩
        intro x hx1 hx2
        simp only [validScalar]
        omega
      · rw [if_neg h3] at h
        by_cases h4 : b < 0xF0
        · rw [if_pos h4] at h
          injection h with hp
          subst hp
          simp only [pendInv]
          refine ⟨by split <;> omega, by split <;> omega, Or.inr (Or.inl ⟨by trivial, ?_⟩)⟩
          intro x hx1 hx2 y hy1 hy2
          simp only [validScalar]
          by_cases hE : b = 0xE0
          · rw [if_pos hE] at hx1
            rw [if_neg (by omega : ¬b = 0xED)] at hx2
            omega
          · by_cases hD : b = 0xED
            · rw [if_neg hE] at hx1
              rw [if_pos hD] at hx2
              omega
            · rw [if_neg hE] at hx1
              rw [if_neg hD] at hx2
              omega
        · rw [if_neg h4] at h
          by_cases h5 : b < 0xF5
          · rw [if_pos h5] at h
            injection h with hp
            subst hp
            simp only [pendInv]
            refine ⟨by split <;> omega, by split <;> omega, Or.inr (Or.inr ⟨by trivial, ?_⟩)⟩
            intro x hx1 hx2 y hy1 hy2 z hz1 hz2
            simp only [validScalar]
            by_cases hF : b = 0xF0
            · rw [if_pos hF] at hx1
              rw [if_neg (by omega : ¬b = 0xF4)] at hx2
              omega
            · by_cases hG : b = 0xF4
              · rw [if_neg hF] at hx1
                rw [if_pos hG] at hx2
                omega
              · rw [if_neg hF] at hx1
                rw [if_neg hG] at hx2
                omega
          · rw [if_neg h5] at h
            exact LeadClass.noConfusion h

theorem pendInv_emit (p : Utf8Pend) (b : Nat) (hinv : pendInv p) (hlo : p.lo ≤ b)
    (hhi : b < p.hi) (hn : p.need ≤ 1) : validScalar (p.val * 0x40 + (b - 0x80)) := by
  simp only [pendInv] at hinv
  obtain ⟨h1, h2, h3 | h3 | h3⟩ := hinv
  · exact h3.2 b hlo hhi
  · obtain ⟨hne, _⟩ := h3
    omega
  · obtain ⟨hne, _⟩ := h3
    omega

theorem pendInv_step (p : Utf8Pend) (b : Nat) (hinv : pendInv p) (hlo : p.lo ≤ b)
    (hhi : b < p.hi) (hn : ¬p.need ≤ 1) :
    pendInv ⟨p.need - 1, p.val * 0x40 + (b - 0x80), 0x80, 0xC0⟩ := by
  simp only [pendInv] at hinv ⊢
  obtain ⟨h1, h2, h3 | h3 | h3⟩ := hinv
  · obtain ⟨hne, _⟩ := h3
    omega
  · obtain ⟨hne, hv⟩ := h3
    refine ⟨by omega, by omega, Or.inl ⟨by omega, ?_⟩⟩
    intro x hx1 hx2
    exact hv b hlo hhi x hx1 hx2
  · obtain ⟨hne, hv⟩ := h3
    refine ⟨by omega, by omega, Or.inr (Or.inl ⟨by omega, ?_⟩)⟩
    intro x hx1 hx2 y hy1 hy2
    exact hv b hlo hhi x hx1 hx2 y hy1 hy2

theorem utf8IgnoreGo_valid : ∀ (bs : List Nat) (pend : Option Utf8Pend),
    (∀ p, pend = some p → pendInv p) → ∀ c ∈ utf8IgnoreGo bs pend, validScalar c := by
  intro bs
  induction bs with
  | nil =>
    intro pend _ c hc
    simp [utf8IgnoreGo] at hc
  | cons b bs ih =>
    intro pend hp c hc
    cases pend with
    | none =>
      simp only [utf8IgnoreGo] at hc
      rcases hl : utf8Lead b with c' | q | _
      · rw [hl] at hc
        simp at hc
        rcases hc with hc | hc
        · subst hc
          exact utf8Lead_emit_valid b _ hl
        · exact ih none (fun p hpq => absurd hpq (by simp)) c hc
      · rw [hl] at hc
        refine ih (some q) ?_ c hc
        intro p' hq
        injection hq with hq'
        subst hq'
        exact utf8Lead_start_inv b _ hl
      · rw [hl] at hc
        exact ih none (fun p hpq => absurd hpq (by simp)) c hc
    | some p =>
      have hpi := hp p rfl
      simp only [utf8IgnoreGo] at hc
      by_cases hr : p.lo ≤ b ∧ b < p.hi
      · rw [if_pos hr] at hc
        by_cases hn : p.need ≤ 1
        · rw [if_pos hn] at hc
          simp at hc
          rcases hc with hc | hc
          · rw [hc]
            exact pendInv_emit p b hpi hr.1 hr.2 hn
          · exact ih none (fun p' hpq => absurd hpq (by simp)) c hc
        · rw [if_neg hn] at hc
          refine ih (some _) ?_ c hc
          intro p' hq
          injection hq with hq'
          subst hq'
          exact pendInv_step p b hpi hr.1 hr.2 hn
      · rw [if_neg hr] at hc
        rcases hl : utf8Lead b with c' | q | _
        · rw [hl] at hc
          simp at hc
          rcases hc with hc | hc
          · subst hc
            exact utf8Lead_emit_valid b _ hl
          · exact ih none (fun p' hpq => absurd hpq (by simp)) c hc
        · rw [hl] at hc
          refine ih (some q) ?_ c hc
          intro p' hq
          injection hq with hq'
          subst hq'
          exact utf8Lead_start_inv b _ hl
        · rw [hl] at hc
          exact ih none (fun p' hpq => absurd hpq (by simp)) c hc

theorem utf8StrictGo_agree : ∀ (bs : List Nat) (pend : Option Utf8Pend) (cs : List Nat),
    utf8StrictGo bs pend = some cs → utf8IgnoreGo bs pend = cs := by
  intro bs
  induction bs with
  | nil =>
    intro pend cs h
    cases pend with
    | none =>
      simp only [utf8StrictGo, Option.some.injEq] at h
      subst h
      simp [utf8IgnoreGo]
    | some p => simp [utf8StrictGo] at h
  | cons b bs ih =>
    intro pend cs h
    cases pend with
    | none =>
      simp only [utf8StrictGo] at h
      rcases hl : utf8Lead b with c' | q | _
      · rw [hl] at h
        rcases hs : utf8StrictGo bs none with _ | cs'
        · rw [hs] at h
          simp at h
        · rw [hs] at h
          simp only [Option.map] at h
          injection h with h2
          simp only [utf8IgnoreGo, hl]
          rw [ih none cs' hs]
          exact h2
      · rw [hl] at h
        simp only [utf8IgnoreGo, hl]
        exact ih (some q) cs h
      · rw [hl] at h
        simp at h
    | some p =>
      simp only [utf8StrictGo] at h
      by_cases hr : p.lo ≤ b ∧ b < p.hi
      · rw [if_pos hr] at h
        by_cases hn : p.need ≤ 1
        · rw [if_pos hn] at h
          rcases hs : utf8StrictGo bs none with _ | cs'
          · rw [hs] at h
            simp at h
          · rw [hs] at h
            simp only [Option.map] at h
            injection h with h2
            simp only [utf8IgnoreGo, if_pos hr, if_pos hn]
            rw [ih none cs' hs]
            exact h2
        · rw [if_neg hn] at h
          simp only [utf8IgnoreGo, if_pos hr, if_neg hn]
          exact ih (some _) cs h
      · rw [if_neg hr] at h
        simp at h

theorem dropWhile_head_not (p : Nat → Bool) : ∀ (l : List Nat) (x : Nat),
    (l.dropWhile p).head? = some x → p x = false := by
  intro l
  induction l with
  | nil => intro x h; simp at h
  | cons a t ih =>
    intro x h
    by_cases hpa : p a = true
    · rw [List.dropWhile_cons] at h
      rw [if_pos hpa] at h
      exact ih x h
    · rw [List.dropWhile_cons] at h
      rw [if_neg hpa] at h
      simp only [List.head?_cons, Option.some.injEq] at h
      subst h
      simpa using hpa

/-- Claim C10: the read path decoding is total and benign on every byte
sequence: whenever strict UTF-8 decoding succeeds the error-ignoring
decoder returns exactly the same text (so only genuinely undecodable
bytes are ever dropped), every scalar the error-ignoring decoder emits is
a valid Unicode scalar value (never an error), and the processed line is
stripped: its first and last characters are never whitespace. -/
theorem c10_theorem (bs : List Nat) :
    (∀ cs, utf8Strict bs = some cs → utf8Ignore bs = cs) ∧
    (∀ c ∈ utf8Ignore bs, validScalar c) ∧
    (∀ x, (decodedLine bs).head? = some x → isSpaceNat x = false) ∧
    (∀ x, (decodedLine bs).getLast? = some x → isSpaceNat x = false) := by
  refine ⟨?_, ?_, ?_, ?_⟩
  · intro cs h
    exact utf8StrictGo_agree bs none cs h
  · intro c hc
    exact utf8IgnoreGo_valid bs none (fun p hp => absurd hp (by simp)) c hc
  · intro x h
    unfold decodedLine pyStripN at h
    rw [List.head?_reverse] at h
    have hne : ((utf8Ignore bs).dropWhile isSpaceNat).reverse.dropWhile isSpaceNat ≠ [] := by
      intro hnil
      rw [hnil] at h
      simp at h
    obtain ⟨u, hu⟩ :=
      List.dropWhile_suffix (l := ((utf8Ignore bs).dropWhile isSpaceNat).reverse) isSpaceNat
    have hgl : ((utf8Ignore bs).dropWhile isSpaceNat).reverse.getLast? = some x := by
      rw [← hu, List.getLast?_append, h]
      rfl
    rw [List.getLast?_reverse] at hgl
    exact dropWhile_head_not isSpaceNat _ x hgl
  · intro x h
    unfold decodedLine pyStripN at h
    rw [List.getLast?_reverse] at h
    exact dropWhile_head_not isSpaceNat _ x h

/-- Claim C10 witness: a line of bytes containing an undecodable byte and
surrounding whitespace is decoded and stripped without error. -/
theorem c10_witness : isSpaceNat 65 = false :=
  (c10_theorem [32, 65, 255, 10]).2.2.1 65 (by decide)

end BumpCollect
